import Mathlib

/-!
Shallow embedding of the slug-identity / URL-normalization / JSON-store
subsystem of `server.js` (p5-Sketch-Gallery).

JavaScript strings are modelled as lists of Unicode code points (`List Nat`).
Within the scope of this development (Basic Multilingual Plane, no surrogate
pairs) this coincides with the JS UTF-16 code-unit sequence.

Platform functions used by the source (`String.prototype.normalize("NFD")`,
`toLowerCase`, `Number(...)`, the WHATWG `URL` class) are modelled on the
character/URL ranges the program exercises; each model carries a doc comment
stating its scope.  Everything else is translated line by line from
`server.js`.
-/

/-- Code points of a Lean string literal; used to write concrete JS strings. -/
def jstr (s : String) : List Nat := s.toList.map Char.toNat

/-- JS strings as code-point sequences. -/
abbrev JsStr := List Nat

/-- Model of `String.prototype.toLowerCase` on one code unit.  Scope of the
model: ASCII letters are lowered; all other code points are left unchanged. -/
def lowerCU (n : Nat) : Nat := if 65 ≤ n ∧ n ≤ 90 then n + 32 else n

/-- Model of `String.prototype.toLowerCase`. -/
def lowerJs (s : JsStr) : JsStr := s.map lowerCU

/-- Bool test for `p` being a prefix of `s` (JS `String.prototype.startsWith`). -/
def hasPrefixCU : JsStr → JsStr → Bool
  | [], _ => true
  | _ :: _, [] => false
  | p :: ps, c :: cs => p == c && hasPrefixCU ps cs

/-- Bool test for `pat` occurring as a contiguous substring of `s`
(JS `String.prototype.includes`). -/
def hasSub (pat : JsStr) : JsStr → Bool
  | [] => hasPrefixCU pat []
  | c :: cs => hasPrefixCU pat (c :: cs) || hasSub pat cs

/-- Bool test for `pat` being a suffix of `s` (JS `String.prototype.endsWith`). -/
def hasSuffixCU (pat s : JsStr) : Bool := hasPrefixCU pat.reverse s.reverse

/-- Whitespace class used by JS `trim`, `Number(...)` and the regex class
`\s`.  Scope of the model: ASCII whitespace, NBSP and BOM; the rarer Unicode
space characters are outside the model. -/
def jsWsCU (n : Nat) : Bool := n ∈ [32, 9, 10, 11, 12, 13, 160, 65279]

/-- Model of `String.prototype.trim`. -/
def trimJs (s : JsStr) : JsStr := ((s.dropWhile jsWsCU).reverse.dropWhile jsWsCU).reverse

/-- Canonical decomposition (`normalize("NFD")`) of one code point.  Scope of
the model: the accented Latin letters relevant to the gallery's Turkish
authors (acute, diaeresis, breve, cedilla pairs); all other code points are
returned undecomposed.  Note U+0131 (dotless i) has no NFD decomposition,
which is why `server.js` special-cases it separately. -/
def nfdCU (n : Nat) : List Nat :=
  if n = 201 then [69, 769]          -- E acute
  else if n = 233 then [101, 769]    -- e acute
  else if n = 220 then [85, 776]     -- U diaeresis
  else if n = 252 then [117, 776]    -- u diaeresis
  else if n = 214 then [79, 776]     -- O diaeresis
  else if n = 246 then [111, 776]    -- o diaeresis
  else if n = 199 then [67, 807]     -- C cedilla
  else if n = 231 then [99, 807]     -- c cedilla
  else if n = 286 then [71, 774]     -- G breve
  else if n = 287 then [103, 774]    -- g breve
  else if n = 350 then [83, 807]     -- S cedilla
  else if n = 351 then [115, 807]    -- s cedilla
  else [n]

/-- Combining-diacritic range `[̀-ͯ]` removed by `normalizeAscii`. -/
def isCombiningCU (n : Nat) : Bool := decide (768 ≤ n ∧ n ≤ 879)

/-- `normalizeAscii` from `server.js`: NFD-decompose, strip combining marks,
then map the two Turkish dotted/dotless characters U+0130 / U+0131 to ASCII. -/
def normalizeAscii (s : JsStr) : JsStr :=
  (((s.flatMap nfdCU).filter (fun n => ! isCombiningCU n)).map
      (fun n => if n = 304 then 73 else n)).map
    (fun n => if n = 305 then 105 else n)

/-- JS `String.prototype.split(" ")` (single-space separator, not a regex). -/
def splitOn32 : JsStr → List JsStr
  | [] => [[]]
  | c :: cs =>
    if c = 32 then [] :: splitOn32 cs
    else
      match splitOn32 cs with
      | [] => [[c]]
      | t :: ts => (c :: t) :: ts

def isLowerAlphaCU (n : Nat) : Bool := decide (97 ≤ n ∧ n ≤ 122)

def isDigitCU (n : Nat) : Bool := decide (48 ≤ n ∧ n ≤ 57)

/-- Characters allowed in a slug: `[a-z0-9-]`. -/
def isSlugCU (n : Nat) : Bool := isLowerAlphaCU n || isDigitCU n || n == 45

/-- Characters kept by the title regex `[^a-z0-9\s-]` → `""` of `generateSlug`. -/
def titleFilterCU (n : Nat) : Bool := isLowerAlphaCU n || isDigitCU n || jsWsCU n || n == 45

/-- Replace every maximal run of characters satisfying `p` by `r`
(JS `String.prototype.replace` with a global `X+` regex).  The Bool argument
records whether the scan is currently inside a run. -/
def collapseRunsAux (p : Nat → Bool) (r : JsStr) : Bool → JsStr → JsStr
  | _, [] => []
  | inRun, c :: cs =>
    if p c then
      if inRun then collapseRunsAux p r true cs
      else r ++ collapseRunsAux p r true cs
    else c :: collapseRunsAux p r false cs

def collapseRuns (p : Nat → Bool) (r : JsStr) (s : JsStr) : JsStr :=
  collapseRunsAux p r false s

/-- JS `replace(/^-+|-+$/g, "")`: strip leading and trailing hyphen runs. -/
def stripEdgeHyphens (s : JsStr) : JsStr :=
  ((s.dropWhile (fun n => n == 45)).reverse.dropWhile (fun n => n == 45)).reverse

/-- The `titleSlug` pipeline of `generateSlug` in `server.js`:
lower-case, trim, drop characters outside `[a-z0-9\s-]`, collapse whitespace
runs to `-`, collapse hyphen runs, strip edge hyphens. -/
def titleSlugOf (title : JsStr) : JsStr :=
  stripEdgeHyphens
    (collapseRuns (fun n => n == 45) [45]
      (collapseRuns jsWsCU [45]
        ((trimJs (lowerJs (normalizeAscii title))).filter titleFilterCU)))

/-- The `lastName` pipeline of `generateSlug` in `server.js`:
`normalizeAscii(author).trim().split(" ").pop().toLowerCase()`. -/
def lastTokenOf (author : JsStr) : JsStr :=
  lowerJs ((splitOn32 (trimJs (normalizeAscii author))).getLastD [])

/-- `generateSlug` from `server.js`. -/
def generateSlug (title author : JsStr) : JsStr :=
  titleSlugOf title ++ [45] ++ lastTokenOf author

/-!  URL model.  The WHATWG `URL` class is modelled for absolute URLs in
`scheme://host[:port]path[?query][#fragment]` form: scheme and host are
lower-cased, a default port is dropped, an empty path becomes `/`, the port
must fit in 16 bits.  Inputs outside this shape (relative URLs, userinfo,
IPv6 hosts, schemes without `//`) are treated as unparseable, and the
parser's percent-encoding and dot-segment canonicalization are outside the
model. -/

structure JsUrl where
  scheme : JsStr
  host : JsStr
  port : Option Nat
  path : JsStr
  query : Option JsStr
  frag : Option JsStr
deriving DecidableEq

def isAlphaCU (n : Nat) : Bool := decide ((65 ≤ n ∧ n ≤ 90) ∨ (97 ≤ n ∧ n ≤ 122))

def isSchemeCU (n : Nat) : Bool := isAlphaCU n || isDigitCU n || n == 43 || n == 45 || n == 46

/-- Characters that end or are forbidden inside an authority's host:
space `#` `/` `:` `?` `@` `[` `\` `]`. -/
def isHostForbiddenCU (n : Nat) : Bool := n ∈ [32, 35, 47, 58, 63, 64, 91, 92, 93]

def isHostCU (n : Nat) : Bool := ! isHostForbiddenCU n

/-- JS `Array.prototype.findIndex`, with `none` for `-1`. -/
def findFirstIdx {α : Type} (p : α → Bool) : List α → Option Nat
  | [] => none
  | x :: xs => if p x then some 0 else (findFirstIdx p xs).map (fun i => i + 1)

/-- Split at the first occurrence of `sep`; `none` when `sep` is absent. -/
def splitFirst (sep : Nat) : JsStr → Option (JsStr × JsStr)
  | [] => none
  | c :: cs =>
    if c = sep then some ([], cs)
    else
      match splitFirst sep cs with
      | none => none
      | some (a, b) => some (c :: a, b)

/-- Longest prefix free of the stop characters, paired with the remainder
(which is empty or begins with a stop character). -/
def spanUntil (stops : List Nat) : JsStr → JsStr × JsStr
  | [] => ([], [])
  | c :: cs =>
    if c ∈ stops then ([], c :: cs)
    else
      let r := spanUntil stops cs
      (c :: r.1, r.2)

def natOfDigits (ds : JsStr) : Nat :=
  Nat.ofDigits 10 ((ds.map (fun n => n - 48)).reverse)

def natToDigits (p : Nat) : JsStr :=
  if p = 0 then [48] else (Nat.digits 10 p).reverse.map (fun d => d + 48)

/-- Default ports dropped by the WHATWG URL serializer. -/
def defaultPort (scheme : JsStr) : Option Nat :=
  if scheme = jstr ("http") then some 80
  else if scheme = jstr ("https") then some 443
  else if scheme = jstr ("ws") then some 80
  else if scheme = jstr ("wss") then some 443
  else if scheme = jstr ("ftp") then some 21
  else none

/-- Parse the optional `:port` part of an authority.  `none` means the whole
URL is invalid; `some none` means no (or default) port. -/
def parsePortPart (scheme : JsStr) : Option JsStr → Option (Option Nat)
  | none => some none
  | some [] => some none
  | some (d :: ds) =>
    if (d :: ds).all isDigitCU then
      if natOfDigits (d :: ds) ≤ 65535 then
        some (if defaultPort scheme = some (natOfDigits (d :: ds)) then none
              else some (natOfDigits (d :: ds)))
      else none
    else none

/-- Split the part after the path into query and fragment.  By construction
the argument is empty or begins with `?` or `#`. -/
def parseQF : JsStr → Option JsStr × Option JsStr
  | [] => (none, none)
  | c :: cs =>
    if c = 63 then
      let r := spanUntil [35] cs
      match r.2 with
      | _ :: f => (some r.1, some f)
      | [] => (some r.1, none)
    else (none, some cs)

/-- The host part of an authority: everything before the first `:`. -/
def hostOf (auth : JsStr) : JsStr :=
  match splitFirst 58 auth with
  | none => auth
  | some (h, _) => h

/-- The raw port digits of an authority, when a `:` is present. -/
def portPartOf (auth : JsStr) : Option JsStr :=
  match splitFirst 58 auth with
  | none => none
  | some (_, p) => some p

/-- Host and port of an authority string; `none` when the authority is
invalid (userinfo, empty or forbidden host, bad port). -/
def parseHostPort (scheme auth : JsStr) : Option (JsStr × Option Nat) :=
  if 64 ∈ auth then none
  else
    if hostOf auth ≠ [] ∧ (hostOf auth).all isHostCU then
      match parsePortPart scheme (portPartOf auth) with
      | none => none
      | some port => some (lowerJs (hostOf auth), port)
    else none

/-- Path, query and fragment of the part after the authority. -/
def assembleUrl (scheme host : JsStr) (port : Option Nat) (rest : JsStr) : JsUrl :=
  ⟨scheme, host, port,
   if (spanUntil [63, 35] rest).1 = [] then [47] else (spanUntil [63, 35] rest).1,
   (parseQF (spanUntil [63, 35] rest).2).1,
   (parseQF (spanUntil [63, 35] rest).2).2⟩

/-- Authority, path, query and fragment parsing of `new URL`, after the
scheme and the `//` have been consumed; `scheme` is already lower-cased. -/
def parseAuthority (scheme : JsStr) (rest2 : JsStr) : Option JsUrl :=
  (parseHostPort scheme (spanUntil [47, 63, 35] rest2).1).map
    (fun hp => assembleUrl scheme hp.1 hp.2 (spanUntil [47, 63, 35] rest2).2)

/-- Model of `new URL(s)` (see the URL-model scope note above). -/
def parseUrl (s : JsStr) : Option JsUrl :=
  match splitFirst 58 s with
  | none => none
  | some (rawScheme, rest) =>
    match rawScheme, rest with
    | c :: cs, r1 :: r2 :: rest2 =>
      if r1 = 47 ∧ r2 = 47 ∧ (isAlphaCU c && cs.all isSchemeCU) = true then
        parseAuthority (lowerJs (c :: cs)) rest2
      else none
    | _, _ => none

def portStr : Option Nat → JsStr
  | none => []
  | some p => 58 :: natToDigits p

def queryStr : Option JsStr → JsStr
  | none => []
  | some q => 63 :: q

def fragStr : Option JsStr → JsStr
  | none => []
  | some f => 35 :: f

/-- Model of `URL.prototype.toString` for the URL model above. -/
def serializeUrl (u : JsUrl) : JsStr :=
  u.scheme ++ [58, 47, 47] ++ u.host ++ portStr u.port ++ u.path ++
    queryStr u.query ++ fragStr u.frag

def segSketches : JsStr := jstr ("/sketches/")

def segEdit : JsStr := jstr ("/edit/")

def segFull : JsStr := jstr ("/full/")

/-- JS `pathname.replace(/\/(sketches|edit)\//, "/full/")`: rewrite the first
occurrence only (the regex has no `g` flag). -/
def replaceP5Seg : JsStr → JsStr
  | [] => []
  | c :: cs =>
    if hasPrefixCU segSketches (c :: cs) then segFull ++ (c :: cs).drop 10
    else if hasPrefixCU segEdit (c :: cs) then segFull ++ (c :: cs).drop 6
    else c :: replaceP5Seg cs

/-- Does the path still contain a `/sketches/` or `/edit/` segment? -/
def hasP5Seg (p : JsStr) : Bool := hasSub segSketches p || hasSub segEdit p

/-- JS `pathname.replace(/\/$/, "")`: drop one trailing slash. -/
def stripTrailSlash (p : JsStr) : JsStr :=
  match p.getLast? with
  | some 47 => p.dropLast
  | _ => p

/-- JS `/\/sketch\//.test(pathname)`. -/
def opTest (p : JsStr) : Bool := hasSub (jstr ("/sketch/")) p

/-- JS `pathname.endsWith("/embed")`. -/
def endsEmbed (p : JsStr) : Bool := hasSuffixCU (jstr ("/embed")) p

/-- `normalizeP5Url` from `server.js`. -/
def normalizeP5Url (u : JsStr) : JsStr :=
  if hasSub (jstr ("p5js")) (lowerJs u) && hasSub (jstr ("editor")) (lowerJs u) then
    match parseUrl u with
    | none => u
    | some U =>
      if hasPrefixCU (jstr ("editor.")) (lowerJs U.host) &&
         hasSub (jstr ("p5js.org")) (lowerJs U.host) then
        serializeUrl { U with path := replaceP5Seg U.path }
      else u
  else u

/-- `normalizeOpenProcessingUrl` from `server.js`. -/
def normalizeOpenProcessingUrl (u : JsStr) : JsStr :=
  if hasSub (jstr ("openprocessing")) (lowerJs u) then
    match parseUrl u with
    | none => u
    | some U =>
      if opTest U.path && ! endsEmbed U.path then
        serializeUrl { U with path := stripTrailSlash U.path ++ jstr ("/embed") }
      else serializeUrl U
  else u

/-- `normalizeSketchUrl` from `server.js`: the OpenProcessing pass composed
after the p5 pass. -/
def normalizeSketchUrl (u : JsStr) : JsStr :=
  normalizeOpenProcessingUrl (normalizeP5Url u)

def isLowerSchemeCU (n : Nat) : Bool :=
  isLowerAlphaCU n || isDigitCU n || n == 43 || n == 45 || n == 46

def isUpperCU (n : Nat) : Bool := decide (65 ≤ n ∧ n ≤ 90)

def schemeOKB : JsStr → Bool
  | [] => false
  | c :: cs => isLowerAlphaCU c && cs.all isLowerSchemeCU

def pathOKB (p : JsStr) : Bool :=
  p.headD 0 == 47 && p.all (fun n => ! (n == 63 || n == 35))

/-- URLs in the image of the parser: serializing and re-parsing such a URL is
the identity. -/
def canonicalB (U : JsUrl) : Bool :=
  schemeOKB U.scheme &&
  (! (U.host == [])) && U.host.all (fun n => isHostCU n && ! isUpperCU n) &&
  (match U.port with
   | none => true
   | some p => decide (p ≤ 65535) && ! (defaultPort U.scheme == some p)) &&
  pathOKB U.path &&
  (match U.query with
   | none => true
   | some q => q.all (fun n => ! (n == 35)))

/-! Request values and validators. -/

/-- JSON-ish request values.  Scope of the model: strings, integral numbers,
booleans, null and undefined (absent field); fractional numbers, objects and
arrays are outside the model. -/
inductive JsVal where
  | str (s : JsStr)
  | num (n : Int)
  | bool (b : Bool)
  | nullV
  | undef
deriving DecidableEq

/-- Result of JS numeric coercion within the model: an integral number or
NaN.  Values whose JS coercion is a finite non-integer would fail
`Number.isInteger` exactly as `nan` fails it here. -/
inductive JsNumV where
  | nan
  | int (n : Int)
deriving DecidableEq

def parseDecInt (ds : JsStr) : JsNumV :=
  if ds ≠ [] ∧ ds.all isDigitCU then .int (natOfDigits ds) else .nan

/-- Model of `Number(string)`.  Scope: optionally signed decimal integer
literals surrounded by whitespace, and the empty string (which coerces to 0);
other numeric syntaxes (fractions, exponents, hex) are outside the model and
mapped to NaN. -/
def strToNumber (s : JsStr) : JsNumV :=
  match trimJs s with
  | [] => .int 0
  | 43 :: ds => parseDecInt ds
  | 45 :: ds =>
    match parseDecInt ds with
    | .int n => .int (-n)
    | .nan => .nan
  | ds => parseDecInt ds

/-- Model of `Number(value)` on request values. -/
def jsToNumber : JsVal → JsNumV
  | .str s => strToNumber s
  | .num n => .int n
  | .bool b => .int (if b then 1 else 0)
  | .nullV => .int 0
  | .undef => .nan

/-- `validateDimension` from `server.js`: `!isNaN(num) && num > 0 &&
num <= 10000 && Number.isInteger(num)`. -/
def validateDimension (v : JsVal) : Bool :=
  match jsToNumber v with
  | .nan => false
  | .int n => decide (0 < n) && decide (n ≤ 10000)

/-- Control characters `[\x00-\x1F\x7F]`. -/
def isCtrlCU (n : Nat) : Bool := decide (n ≤ 31) || n == 127

/-- `validateSketchField` from `server.js`. -/
def validateSketchField (v : JsVal) (maxLen : Nat) : Bool :=
  match v with
  | .str s =>
    (! (trimJs s == [])) && decide ((trimJs s).length ≤ maxLen) && ! s.any isCtrlCU
  | _ => false

/-- `validateUrl` from `server.js`. -/
def validateUrl (v : JsVal) : Bool :=
  match v with
  | .str s =>
    (! (s == [])) &&
    (match parseUrl s with
     | some U => U.scheme == jstr ("http") || U.scheme == jstr ("https")
     | none => false)
  | _ => false

/-- `validateFolderId` from `server.js`: `^[a-z0-9-]+$`, length 1..50. -/
def validateFolderId (v : JsVal) : Bool :=
  match v with
  | .str s => (! (s == [])) && s.all isSlugCU && decide (s.length ≤ 50)
  | _ => false

/-- Word characters for the `\b` boundary in the script-strip regex. -/
def isWordCU (n : Nat) : Bool := isAlphaCU n || isDigitCU n || n == 95

/-- Case-insensitive prefix test (the script regex carries the `i` flag). -/
def ciPrefixAt (pat s : JsStr) : Bool := lowerJs (s.take pat.length) == pat

/-- Scan for the first case-insensitive occurrence of a closing script tag;
returns the remainder after it. -/
def findCloseScript : JsStr → Option JsStr
  | [] => none
  | c :: cs =>
    if ciPrefixAt (jstr ("</script>")) (c :: cs) then some ((c :: cs).drop 9)
    else findCloseScript cs

/-- Fuelled scan for
`replace(/<script\b[^<]*(?:(?!<\/script>)<[^<]*)*<\/script>/gi, "")`:
a match runs from a case-insensitive `<script` with a non-word boundary to
the first subsequent case-insensitive `</script>`.  Each step consumes at
least one character, so fuel `length + 1` never runs out. -/
def stripScriptsF : Nat → JsStr → JsStr
  | 0, s => s
  | _ + 1, [] => []
  | fuel + 1, c :: cs =>
    if ciPrefixAt (jstr ("<script")) (c :: cs) &&
       (match (c :: cs).drop 7 with | [] => true | d :: _ => ! isWordCU d) then
      match findCloseScript ((c :: cs).drop 7) with
      | some rest => stripScriptsF fuel rest
      | none => c :: stripScriptsF fuel cs
    else c :: stripScriptsF fuel cs

def stripScripts (s : JsStr) : JsStr := stripScriptsF (s.length + 1) s

/-- `sanitizeString` from `server.js`: non-strings become `""`; strings lose
script blocks and NUL bytes. -/
def sanitizeString (v : JsVal) : JsStr :=
  match v with
  | .str s => (stripScripts s).filter (fun n => ! (n == 0))
  | _ => []

/-! Record store and handlers. -/

/-- A persisted sketch record. -/
structure Sketch where
  author : JsStr
  title : JsStr
  description : JsStr
  url : JsStr
  width : Int
  height : Int
  week : JsStr
deriving DecidableEq

def dfltSketch : Sketch := ⟨[], [], [], [], 0, 0, []⟩

/-- A persisted folder record. -/
structure Folder where
  id : JsStr
  name : JsStr
  isDefault : Bool
deriving DecidableEq

def dfltFolder : Folder := ⟨[], [], false⟩

/-- The derived identifier of a stored record (never stored itself). -/
def derivedSlug (s : Sketch) : JsStr := generateSlug s.title s.author

/-- A request body for the sketch endpoints; absent fields are `undef`. -/
structure SketchBody where
  author : JsVal
  title : JsVal
  description : JsVal
  url : JsVal
  width : JsVal
  height : JsVal
  week : JsVal
deriving DecidableEq

def emptyBody : SketchBody := ⟨.undef, .undef, .undef, .undef, .undef, .undef, .undef⟩

def asStr : JsVal → JsStr
  | .str s => s
  | _ => []

/-- `Number(v)` as stored (only reached on validated dimensions, where the
coercion is an in-range integer). -/
def numOf (v : JsVal) : Int :=
  match jsToNumber v with
  | .int n => n
  | .nan => 0

/-- JS truthiness. -/
def jsFalsy : JsVal → Bool
  | .undef => true
  | .nullV => true
  | .bool b => ! b
  | .num n => n == 0
  | .str s => s == []

/-- JS `description || ""`. -/
def jsOrEmpty (v : JsVal) : JsVal := if jsFalsy v then .str [] else v

/-- Responses of `POST /api/sketches`: 201, 400 (validation), 400 (unknown
folder), 409. -/
inductive SkResp where
  | created (item : Sketch) (slug : JsStr)
  | invalid
  | noFolder
  | conflict
deriving DecidableEq

/-- The week-exists check: skipped when the folders file does not exist. -/
def weekExistsCheck (foldersFile : Option (List Folder)) (week : JsVal) : Bool :=
  match foldersFile with
  | some folders => folders.any (fun f => f.id == asStr week)
  | none => true

/-- The `POST /api/sketches` handler from `server.js`, as a function from the
folders file and the sketches store to a response and the store afterwards. -/
def postSketch (foldersFile : Option (List Folder)) (sketches : List Sketch)
    (b : SketchBody) : SkResp × List Sketch :=
  if ! validateSketchField b.author 100 then (.invalid, sketches)
  else if ! validateSketchField b.title 200 then (.invalid, sketches)
  else if ! validateUrl b.url then (.invalid, sketches)
  else if ! (validateDimension b.width && validateDimension b.height) then (.invalid, sketches)
  else if ! validateFolderId b.week then (.invalid, sketches)
  else if ! weekExistsCheck foldersFile b.week then (.noFolder, sketches)
  else
    let slug := generateSlug (asStr b.title) (asStr b.author)
    if sketches.any (fun s => derivedSlug s == slug) then (.conflict, sketches)
    else
      let item : Sketch :=
        { author := sanitizeString b.author
          title := sanitizeString b.title
          description := sanitizeString (jsOrEmpty b.description)
          url := normalizeSketchUrl (asStr b.url)
          width := numOf b.width
          height := numOf b.height
          week := sanitizeString b.week }
      (.created item slug, sketches ++ [item])

/-- Responses of `PATCH /api/sketches/:slug`. -/
inductive PatchResp where
  | ok (item : Sketch) (slug : JsStr)
  | notFound
  | invalid
  | noFolder
  | conflict
deriving DecidableEq

/-- JS `field !== undefined && !valid(field)`. -/
def badIfGiven (v : JsVal) (ok : Bool) : Bool :=
  match v with
  | .undef => false
  | _ => ! ok

/-- JS `field !== undefined ? f(field) : current`. -/
def pickStr (v : JsVal) (f : JsVal → JsStr) (dflt : JsStr) : JsStr :=
  match v with
  | .undef => dflt
  | _ => f v

def pickNum (v : JsVal) (dflt : Int) : Int :=
  match v with
  | .undef => dflt
  | _ => numOf v

/-- The `PATCH /api/sketches/:slug` handler from `server.js`. -/
def patchSketch (foldersFile : Option (List Folder)) (sketches : List Sketch)
    (originalSlug : JsStr) (b : SketchBody) : PatchResp × List Sketch :=
  match findFirstIdx (fun s => derivedSlug s == originalSlug) sketches with
  | none => (.notFound, sketches)
  | some idx =>
    let current := sketches.getD idx dfltSketch
    if badIfGiven b.author (validateSketchField b.author 100) then (.invalid, sketches)
    else if badIfGiven b.title (validateSketchField b.title 200) then (.invalid, sketches)
    else if badIfGiven b.url (validateUrl b.url) then (.invalid, sketches)
    else if badIfGiven b.width (validateDimension b.width) then (.invalid, sketches)
    else if badIfGiven b.height (validateDimension b.height) then (.invalid, sketches)
    else if badIfGiven b.week (validateFolderId b.week) then (.invalid, sketches)
    else if ! jsFalsy b.week && ! weekExistsCheck foldersFile b.week then (.noFolder, sketches)
    else
      let updated : Sketch :=
        { author := pickStr b.author sanitizeString current.author
          title := pickStr b.title sanitizeString current.title
          description := pickStr b.description sanitizeString current.description
          url := pickStr b.url (fun v => normalizeSketchUrl (asStr v)) current.url
          width := pickNum b.width current.width
          height := pickNum b.height current.height
          week := pickStr b.week sanitizeString current.week }
      let newSlug := generateSlug updated.title updated.author
      if ! (newSlug == originalSlug) &&
         sketches.enum.any (fun q => ! (q.1 == idx) && derivedSlug q.2 == newSlug) then
        (.conflict, sketches)
      else (.ok updated newSlug, sketches.set idx updated)

/-- Responses of `DELETE /api/folders/:id`: 200, 404, 400 with `sketchCount`. -/
inductive FolderResp where
  | ok
  | notFound
  | refBlocked (n : Nat)
deriving DecidableEq

/-- The `DELETE /api/folders/:id` handler from `server.js`.  It reads both
stores and writes only the folders file; the sketches store is returned to
express that it is untouched. -/
def deleteFolder (foldersFile : Option (List Folder)) (sketches : List Sketch)
    (id : JsStr) : FolderResp × Option (List Folder) × List Sketch :=
  match foldersFile with
  | none => (.notFound, none, sketches)
  | some folders =>
    match findFirstIdx (fun f => f.id == id) folders with
    | none => (.notFound, some folders, sketches)
    | some idx =>
      let cnt := sketches.countP (fun s => s.week == id)
      if 0 < cnt then (.refBlocked cnt, some folders, sketches)
      else
        let removed := folders.eraseIdx idx
        let reassigned :=
          if ! removed.any (fun f => f.isDefault) && ! (removed == []) then
            match removed with
            | [] => []
            | f :: fs => { f with isDefault := true } :: fs
          else removed
        (.ok, some reassigned, sketches)

/-- Trigger conditions of the p5 pass (the guards whose failure makes the
pass return its input unchanged). -/
def p5Triggered (u : JsStr) : Bool :=
  (hasSub (jstr ("p5js")) (lowerJs u) && hasSub (jstr ("editor")) (lowerJs u)) &&
  (match parseUrl u with
   | none => false
   | some U =>
     hasPrefixCU (jstr ("editor.")) (lowerJs U.host) &&
     hasSub (jstr ("p5js.org")) (lowerJs U.host))

/-- Trigger conditions of the OpenProcessing pass. -/
def opTriggered (u : JsStr) : Bool :=
  hasSub (jstr ("openprocessing")) (lowerJs u) && (parseUrl u).isSome

/-! Concrete stores and request bodies used by the claim theorems below. -/

def c10Folders : Option (List Folder) := some [⟨jstr ("w1"), jstr ("Week 1"), true⟩]

def c10Body : SketchBody :=
  ⟨.str (jstr ("Bob")), .str (jstr ("A")), .undef, .str (jstr ("https://example.com/a")),
   .str (jstr ("500")), .num 100, .str (jstr ("w1"))⟩

def c10Item : Sketch :=
  ⟨jstr ("Bob"), jstr ("A"), [], jstr ("https://example.com/a"), 500, 100, jstr ("w1")⟩

def c6Store : List Sketch :=
  [⟨jstr ("Bob"), jstr ("A"), [], jstr ("https://example.com/a"), 100, 100, jstr ("w1")⟩]

def c6Body : SketchBody :=
  ⟨.str (jstr ("Bob")), .str (jstr ("A")), .undef, .str (jstr ("https://example.com/b")),
   .num 200, .num 200, .str (jstr ("w1"))⟩

def c3Store : List Sketch :=
  [⟨jstr ("Bob"), jstr ("A"), [], jstr ("https://example.com/a"), 100, 100, jstr ("w1")⟩]

def c3Body : SketchBody :=
  ⟨.str (jstr ("Bob")), .str (jstr ("A<script></script>")), .undef,
   .str (jstr ("https://example.com/b")), .num 100, .num 100, .str (jstr ("w1"))⟩

def c3Folders : Option (List Folder) := some [⟨jstr ("w1"), jstr ("Week 1"), true⟩]

def c3Item : Sketch :=
  ⟨jstr ("Bob"), jstr ("A"), [], jstr ("https://example.com/b"), 100, 100, jstr ("w1")⟩

def c9Store : List Sketch :=
  [⟨jstr ("Bob"), jstr ("A"), [], jstr ("https://example.com/a"), 100, 100, jstr ("w1")⟩]

def c5Folders : List Folder :=
  [⟨jstr ("a"), jstr ("Alpha"), true⟩, ⟨jstr ("b"), jstr ("Beta"), false⟩]

theorem mem_stripEdgeHyphens {s : JsStr} {c : Nat} (h : c ∈ stripEdgeHyphens s) : c ∈ s := by
  unfold stripEdgeHyphens at h
  rw [List.mem_reverse] at h
  have h1 := (List.dropWhile_sublist _).subset h
  rw [List.mem_reverse] at h1
  exact (List.dropWhile_sublist _).subset h1

theorem mem_collapseRunsAux {p : Nat → Bool} {r : JsStr} {s : JsStr} {c : Nat} :
    ∀ b, c ∈ collapseRunsAux p r b s → c ∈ r ∨ (c ∈ s ∧ p c = false) := by
  induction s with
  | nil => intro b h; simp [collapseRunsAux] at h
  | cons x xs ih =>
    intro b h
    unfold collapseRunsAux at h
    by_cases hx : p x = true
    · rw [if_pos hx] at h
      cases b with
      | true =>
        rcases ih true h with h1 | ⟨h2, h3⟩
        · exact Or.inl h1
        · exact Or.inr ⟨List.mem_cons_of_mem x h2, h3⟩
      | false =>
        rcases List.mem_append.mp h with h1 | h1
        · exact Or.inl h1
        · rcases ih true h1 with h2 | ⟨h2, h3⟩
          · exact Or.inl h2
          · exact Or.inr ⟨List.mem_cons_of_mem x h2, h3⟩
    · rw [if_neg hx] at h
      rcases List.mem_cons.mp h with rfl | h1
      · exact Or.inr ⟨List.mem_cons_self _ _, Bool.eq_false_iff.mpr hx⟩
      · rcases ih false h1 with h2 | ⟨h2, h3⟩
        · exact Or.inl h2
        · exact Or.inr ⟨List.mem_cons_of_mem x h2, h3⟩

theorem mem_titleSlugOf {t : JsStr} {c : Nat} (h : c ∈ titleSlugOf t) : isSlugCU c = true := by
  unfold titleSlugOf at h
  have h1 := mem_stripEdgeHyphens h
  rcases mem_collapseRunsAux false h1 with h2 | ⟨h2, h3⟩
  · simp at h2
    simp [isSlugCU, h2]
  · rcases mem_collapseRunsAux false h2 with h4 | ⟨h4, h5⟩
    · simp at h4
      simp [isSlugCU, h4]
    · have h6 := List.mem_filter.mp h4
      have h7 := h6.2
      simp [titleFilterCU] at h7
      simp [isSlugCU]
      rcases h7 with ((h8 | h8) | h8) | h8
      · exact Or.inl (Or.inl h8)
      · exact Or.inl (Or.inr h8)
      · simp [h8] at h5
      · exact Or.inr h8

/-- Claim C2 (amended): slug charset guarantee, restricted to authors whose
processed last token is clean. -/
theorem c2_slug_charset_amended (title author : JsStr)
    (h : ∀ c ∈ lastTokenOf author, isSlugCU c = true) :
    ∀ c ∈ generateSlug title author, isSlugCU c = true := by
  intro c hc
  unfold generateSlug at hc
  rcases List.mem_append.mp hc with hc1 | hc1
  · rcases List.mem_append.mp hc1 with hc2 | hc2
    · exact mem_titleSlugOf hc2
    · simp at hc2
      simp [isSlugCU, hc2]
  · exact h c hc1

theorem c2_counterexample :
    ¬ (∀ c ∈ generateSlug (jstr ("a")) (jstr ("!")), isSlugCU c = true) := by decide

theorem c2_witness :
    (∀ c ∈ lastTokenOf (jstr ("Elif Erpulat")), isSlugCU c = true) ∧
    (∀ c ∈ generateSlug (jstr ("Frog")) (jstr ("Elif Erpulat")), isSlugCU c = true) :=
  ⟨by decide, c2_slug_charset_amended (jstr ("Frog")) (jstr ("Elif Erpulat")) (by decide)⟩

/-- Claim C8: the concrete p5 normalization example. -/
theorem c8_concrete_p5 :
    normalizeSketchUrl (jstr ("https://editor.p5js.org/user/sketches/ABC123")) =
      jstr ("https://editor.p5js.org/user/full/ABC123") := by decide

/-- Claim C4: when a pass's guards fail (including URL-parse failure), the pass
returns its input unchanged. -/
theorem c4_passthrough (u : JsStr) :
    (p5Triggered u = false → normalizeP5Url u = u) ∧
    (opTriggered u = false → normalizeOpenProcessingUrl u = u) := by
  constructor
  · intro h
    unfold p5Triggered at h
    unfold normalizeP5Url
    cases htr : (hasSub (jstr ("p5js")) (lowerJs u) && hasSub (jstr ("editor")) (lowerJs u)) with
    | false => simp [htr]
    | true =>
      rw [htr] at h
      simp only [Bool.true_and] at h
      cases hp : parseUrl u with
      | none => simp [htr, hp]
      | some U =>
        rw [hp] at h
        have h2 : (hasPrefixCU (jstr ("editor.")) (lowerJs U.host) &&
            hasSub (jstr ("p5js.org")) (lowerJs U.host)) = false := h
        simp [htr, hp, h2]
  · intro h
    unfold opTriggered at h
    unfold normalizeOpenProcessingUrl
    cases htr : hasSub (jstr ("openprocessing")) (lowerJs u) with
    | false => simp [htr]
    | true =>
      rw [htr] at h
      simp only [Bool.true_and] at h
      cases hp : parseUrl u with
      | none => simp [htr, hp]
      | some U => rw [hp] at h; simp at h

theorem c4_witness :
    normalizeP5Url (jstr ("not a url")) = jstr ("not a url") ∧
    normalizeOpenProcessingUrl (jstr ("not a url")) = jstr ("not a url") :=
  ⟨(c4_passthrough (jstr ("not a url"))).1 (by decide),
   (c4_passthrough (jstr ("not a url"))).2 (by decide)⟩

/-- Claim C7: deleting a folder still referenced by n sketches is refused with the
count, leaving both stores unchanged. -/
theorem c7_referential_guard (F : List Folder) (sk : List Sketch) (id : JsStr)
    (i n : Nat) (hidx : findFirstIdx (fun f => f.id == id) F = some i)
    (hcnt : sk.countP (fun s => s.week == id) = n) (hn : 0 < n) :
    deleteFolder (some F) sk id = (.refBlocked n, some F, sk) := by
  simp only [deleteFolder]
  rw [hidx]
  simp [hcnt, hn]

theorem c7_witness :
    deleteFolder (some [⟨jstr ("w1"), jstr ("Week 1"), true⟩])
        [⟨jstr ("Bob"), jstr ("A"), [], jstr ("https://example.com/a"), 100, 100, jstr ("w1")⟩]
        (jstr ("w1")) =
      (.refBlocked 1, some [⟨jstr ("w1"), jstr ("Week 1"), true⟩],
        [⟨jstr ("Bob"), jstr ("A"), [], jstr ("https://example.com/a"), 100, 100, jstr ("w1")⟩]) :=
  c7_referential_guard _ _ _ 0 1 (by decide) (by decide) (by decide)

/-- Claim C10: dimension validation accepts any value whose numeric coercion is an
integer in range, and an accepted POST stores the coerced number for the width
and for the height alike. -/
theorem c10_dimension_coercion :
    (∀ v n, jsToNumber v = .int n → 0 < n → n ≤ 10000 → validateDimension v = true) ∧
    (∀ ff store b item slug store2,
       postSketch ff store b = (.created item slug, store2) →
       (∀ n, jsToNumber b.width = .int n → item.width = n) ∧
       (∀ n, jsToNumber b.height = .int n → item.height = n)) := by
  constructor
  · intro v n h h1 h2
    unfold validateDimension
    rw [h]
    simp [h1, h2]
  · intro ff store b item slug store2 h
    unfold postSketch at h
    split at h
    · simp at h
    split at h
    · simp at h
    split at h
    · simp at h
    split at h
    · simp at h
    split at h
    · simp at h
    split at h
    · simp at h
    · simp only [] at h
      split at h
      · simp at h
      · simp only [Prod.mk.injEq, SkResp.created.injEq] at h
        constructor
        · intro n hw
          rw [← h.1.1]
          simp [numOf, hw]
        · intro n hh
          rw [← h.1.1]
          simp [numOf, hh]

theorem c10_witness :
    validateDimension (JsVal.str (jstr ("500"))) = true ∧
    validateDimension (JsVal.bool true) = true ∧
    c10Item.width = 500 ∧
    c10Item.height = 100 :=
  ⟨c10_dimension_coercion.1 (JsVal.str (jstr ("500"))) 500 (by decide) (by decide) (by decide),
   c10_dimension_coercion.1 (JsVal.bool true) 1 (by decide) (by decide) (by decide),
   (c10_dimension_coercion.2 c10Folders [] c10Body c10Item (jstr ("a-bob")) [c10Item]
     (by decide)).1 500 (by decide),
   (c10_dimension_coercion.2 c10Folders [] c10Body c10Item (jstr ("a-bob")) [c10Item]
     (by decide)).2 100 (by decide)⟩

/-- Claim C6: an otherwise-valid POST whose derived slug collides with an existing
record returns 409 and leaves the store unchanged. -/
theorem c6_duplicate_conflict (ff : Option (List Folder)) (store : List Sketch)
    (b : SketchBody)
    (hA : validateSketchField b.author 100 = true)
    (hT : validateSketchField b.title 200 = true)
    (hU : validateUrl b.url = true)
    (hW : validateDimension b.width = true)
    (hH : validateDimension b.height = true)
    (hK : validateFolderId b.week = true)
    (hE : weekExistsCheck ff b.week = true)
    (hdup : ∃ s ∈ store, derivedSlug s = generateSlug (asStr b.title) (asStr b.author)) :
    postSketch ff store b = (.conflict, store) := by
  have hany : (store.any fun s =>
      derivedSlug s == generateSlug (asStr b.title) (asStr b.author)) = true := by
    rcases hdup with ⟨s, hs, he⟩
    exact List.any_eq_true.mpr ⟨s, hs, by simp [he]⟩
  unfold postSketch
  simp [hA, hT, hU, hW, hH, hK, hE, hany]

theorem c6_witness :
    postSketch (some [⟨jstr ("w1"), jstr ("Week 1"), true⟩]) c6Store c6Body =
      (.conflict, c6Store) :=
  c6_duplicate_conflict _ _ _ (by decide) (by decide) (by decide) (by decide)
    (by decide) (by decide) (by decide)
    ⟨⟨jstr ("Bob"), jstr ("A"), [], jstr ("https://example.com/a"), 100, 100, jstr ("w1")⟩,
     by decide, by decide⟩

/-- Claim C3 (code-bug evidence): starting from a store with pairwise-distinct
derived slugs, a successful POST (201) produces a store with a duplicated
derived slug, because the collision check uses the raw title while the
stored record holds the sanitized title. -/
theorem c3_uniqueness_bug_eval :
    c3Store.Pairwise (fun a b => derivedSlug a ≠ derivedSlug b) ∧
    postSketch c3Folders c3Store c3Body =
      (.created c3Item (jstr ("ascriptscript-bob")), c3Store ++ [c3Item]) ∧
    ¬ (c3Store ++ [c3Item]).Pairwise (fun a b => derivedSlug a ≠ derivedSlug b) := by
  decide

theorem findFirstIdx_lt_length {α : Type} {p : α → Bool} :
    ∀ {l : List α} {i : Nat}, findFirstIdx p l = some i → i < l.length := by
  intro l
  induction l with
  | nil => intro i h; simp [findFirstIdx] at h
  | cons x xs ih =>
    intro i h
    unfold findFirstIdx at h
    by_cases hx : p x = true
    · rw [if_pos hx] at h
      cases h
      simp
    · rw [if_neg hx] at h
      cases hfi : findFirstIdx p xs with
      | none => rw [hfi] at h; simp at h
      | some j =>
        rw [hfi] at h
        simp at h
        have := ih hfi
        simp only [List.length_cons]
        omega

theorem findFirstIdx_getD {α : Type} {p : α → Bool} (d : α) :
    ∀ {l : List α} {i : Nat}, findFirstIdx p l = some i → p (l.getD i d) = true := by
  intro l
  induction l with
  | nil => intro i h; simp [findFirstIdx] at h
  | cons x xs ih =>
    intro i h
    unfold findFirstIdx at h
    by_cases hx : p x = true
    · rw [if_pos hx] at h
      cases h
      simpa using hx
    · rw [if_neg hx] at h
      cases hfi : findFirstIdx p xs with
      | none => rw [hfi] at h; simp at h
      | some j =>
        rw [hfi] at h
        simp at h
        subst h
        simpa using ih hfi

theorem findFirstIdx_isSome_of_mem {α : Type} {p : α → Bool} :
    ∀ {l : List α}, (∃ a ∈ l, p a = true) → ∃ i, findFirstIdx p l = some i := by
  intro l
  induction l with
  | nil => intro ⟨a, ha, _⟩; simp at ha
  | cons x xs ih =>
    intro ⟨a, ha, hpa⟩
    unfold findFirstIdx
    by_cases hx : p x = true
    · exact ⟨0, by rw [if_pos hx]⟩
    · rcases List.mem_cons.mp ha with rfl | ha1
      · exact absurd hpa hx
      · obtain ⟨j, hj⟩ := ih ⟨a, ha1, hpa⟩
        exact ⟨j + 1, by rw [if_neg hx, hj]; rfl⟩

theorem set_getD_self {α : Type} (d : α) :
    ∀ (l : List α) (i : Nat), i < l.length → l.set i (l.getD i d) = l := by
  intro l
  induction l with
  | nil => intro i h; simp at h
  | cons x xs ih =>
    intro i h
    cases i with
    | zero => simp
    | succ j =>
      have hj : j < xs.length := by simpa using h
      show x :: xs.set j (xs.getD j d) = x :: xs
      rw [ih j hj]

theorem countP_eraseIdx_of_getD {α : Type} (p : α → Bool) (d : α) :
    ∀ (l : List α) (i : Nat), i < l.length → p (l.getD i d) = true →
      (l.eraseIdx i).countP p + 1 = l.countP p := by
  intro l
  induction l with
  | nil => intro i h; simp at h
  | cons x xs ih =>
    intro i h hp
    cases i with
    | zero =>
      simp at hp
      simp [List.countP_cons, hp]
    | succ j =>
      have hj : j < xs.length := by simpa using h
      have hp1 : p (xs.getD j d) = true := by simpa using hp
      have := ih j hj hp1
      show (x :: xs.eraseIdx j).countP p + 1 = _
      simp [List.countP_cons]
      omega

/-- Claim C9: a PATCH whose body provides none of the seven fields answers 200
with the matched record and its unchanged slug, and leaves every record of
the store untouched. -/
theorem c9_patch_empty_noop (ff : Option (List Folder)) (store : List Sketch)
    (slug : JsStr) (h : ∃ s ∈ store, derivedSlug s = slug) :
    ∃ i, findFirstIdx (fun s => derivedSlug s == slug) store = some i ∧
      derivedSlug (store.getD i dfltSketch) = slug ∧
      patchSketch ff store slug emptyBody =
        (.ok (store.getD i dfltSketch) slug, store) := by
  obtain ⟨i, hi⟩ := findFirstIdx_isSome_of_mem (p := fun s => derivedSlug s == slug)
    (by rcases h with ⟨s, hs, he⟩; exact ⟨s, hs, by simp [he]⟩)
  have hp : derivedSlug (store.getD i dfltSketch) = slug := by
    have := findFirstIdx_getD dfltSketch hi
    simpa using this
  have hlt := findFirstIdx_lt_length hi
  have hslug : generateSlug (store.getD i dfltSketch).title (store.getD i dfltSketch).author = slug := hp
  refine ⟨i, hi, hp, ?_⟩
  unfold patchSketch
  rw [hi]
  simp only [emptyBody, badIfGiven, jsFalsy, pickStr, pickNum]
  rw [hslug]
  simp only [beq_self_eq_true, Bool.not_true, Bool.false_and, Bool.false_eq_true, if_false]
  show (PatchResp.ok (store.getD i dfltSketch) slug, store.set i (store.getD i dfltSketch)) =
    (PatchResp.ok (store.getD i dfltSketch) slug, store)
  rw [set_getD_self dfltSketch store i hlt]

theorem c9_witness :
    ∃ i, findFirstIdx (fun s => derivedSlug s == jstr ("a-bob")) c9Store = some i ∧
      derivedSlug (c9Store.getD i dfltSketch) = jstr ("a-bob") ∧
      patchSketch none c9Store (jstr ("a-bob")) emptyBody =
        (.ok (c9Store.getD i dfltSketch) (jstr ("a-bob")), c9Store) :=
  c9_patch_empty_noop none c9Store (jstr ("a-bob"))
    ⟨⟨jstr ("Bob"), jstr ("A"), [], jstr ("https://example.com/a"), 100, 100, jstr ("w1")⟩,
     by decide, by decide⟩

/-- Claim C5: deleting the folder marked default (while other folders remain and no
sketch references it) succeeds and leaves exactly one default folder: the
first remaining one. -/
theorem c5_default_reassign (F : List Folder) (sk : List Sketch) (id : JsStr) (i : Nat)
    (huniq : F.countP (fun f => f.isDefault) ≤ 1)
    (hidx : findFirstIdx (fun f => f.id == id) F = some i)
    (hdef : (F.getD i dfltFolder).isDefault = true)
    (hlen : 2 ≤ F.length)
    (href : sk.countP (fun s => s.week == id) = 0) :
    ∃ f fs, F.eraseIdx i = f :: fs ∧
      deleteFolder (some F) sk id =
        (.ok, some ({ f with isDefault := true } :: fs), sk) ∧
      ({ f with isDefault := true } :: fs).countP (fun g => g.isDefault) = 1 := by
  have hlt := findFirstIdx_lt_length hidx
  have hcount1 : F.countP (fun f => f.isDefault) = 1 := by
    have h1 : 0 < F.countP (fun f => f.isDefault) := by
      refine List.countP_pos_iff.mpr ⟨F.getD i dfltFolder, ?_, by simpa using hdef⟩
      rw [List.getD_eq_getElem F dfltFolder hlt]
      exact List.getElem_mem hlt
    omega
  have herase : (F.eraseIdx i).countP (fun f => f.isDefault) = 0 := by
    have := countP_eraseIdx_of_getD (fun f => f.isDefault) dfltFolder F i hlt (by simpa using hdef)
    omega
  have hne : F.eraseIdx i ≠ [] := by
    have hl := List.length_eraseIdx F i
    rw [if_pos hlt] at hl
    intro hcon
    rw [hcon] at hl
    simp at hl
    omega
  obtain ⟨f, fs, hffs⟩ : ∃ f fs, F.eraseIdx i = f :: fs := by
    cases hE : F.eraseIdx i with
    | nil => exact absurd hE hne
    | cons f fs => exact ⟨f, fs, rfl⟩
  have hany : (F.eraseIdx i).any (fun f => f.isDefault) = false :=
    List.any_eq_false.mpr (fun x hx => by
      have := List.countP_eq_zero.mp herase x hx
      simpa using this)
  have hfsz : fs.countP (fun g => g.isDefault) = 0 := by
    rw [hffs] at herase
    rw [List.countP_cons] at herase
    omega
  refine ⟨f, fs, hffs, ?_, ?_⟩
  · simp only [deleteFolder]
    rw [hidx]
    simp only [href]
    rw [if_neg (by omega)]
    rw [hffs] at hany ⊢
    simp [hany]
  · rw [List.countP_cons]
    simp [hfsz]

theorem c5_witness :
    ∃ f fs, c5Folders.eraseIdx 0 = f :: fs ∧
      deleteFolder (some c5Folders) [] (jstr ("a")) =
        (.ok, some ({ f with isDefault := true } :: fs), []) ∧
      ({ f with isDefault := true } :: fs).countP (fun g => g.isDefault) = 1 :=
  c5_default_reassign c5Folders [] (jstr ("a")) 0 (by decide) (by decide) (by decide)
    (by decide) (by decide)

theorem c1_counterexample :
    normalizeSketchUrl (normalizeSketchUrl (jstr ("https://editor.p5js.org/sketches/edit/x"))) ≠
      normalizeSketchUrl (jstr ("https://editor.p5js.org/sketches/edit/x")) := by decide

theorem lowerCU_not_upper (n : Nat) : isUpperCU (lowerCU n) = false := by
  unfold lowerCU isUpperCU
  by_cases h : 65 ≤ n ∧ n ≤ 90
  · rw [if_pos h]
    simp
    omega
  · rw [if_neg h]
    simp
    omega

theorem lowerCU_of_not_upper {n : Nat} (h : isUpperCU n = false) : lowerCU n = n := by
  unfold lowerCU
  unfold isUpperCU at h
  simp at h
  rw [if_neg (by omega)]

theorem lowerJs_eq_self {s : JsStr} (h : ∀ n ∈ s, isUpperCU n = false) : lowerJs s = s := by
  unfold lowerJs
  induction s with
  | nil => rfl
  | cons x xs ih =>
    simp only [List.map_cons]
    rw [lowerCU_of_not_upper (h x (List.mem_cons_self x xs)),
      ih (fun n hn => h n (List.mem_cons_of_mem x hn))]

theorem isLowerAlphaCU_not_upper {n : Nat} (h : isLowerAlphaCU n = true) :
    isUpperCU n = false := by
  unfold isLowerAlphaCU at h
  unfold isUpperCU
  simp at h ⊢
  omega

theorem isLowerSchemeCU_spec {n : Nat} (h : isLowerSchemeCU n = true) :
    isUpperCU n = false ∧ n ≠ 58 ∧ isSchemeCU n = true := by
  unfold isLowerSchemeCU isLowerAlphaCU isDigitCU at h
  unfold isUpperCU isSchemeCU isAlphaCU isDigitCU
  simp at h ⊢
  omega

theorem isLowerAlphaCU_ne_colon {n : Nat} (h : isLowerAlphaCU n = true) : n ≠ 58 := by
  unfold isLowerAlphaCU at h
  simp at h
  omega

theorem lowerCU_alpha_lower {n : Nat} (h : isAlphaCU n = true) :
    isLowerAlphaCU (lowerCU n) = true := by
  unfold isAlphaCU at h
  unfold lowerCU isLowerAlphaCU
  simp at h
  by_cases h2 : 65 ≤ n ∧ n ≤ 90
  · rw [if_pos h2]
    simp
    omega
  · rw [if_neg h2]
    simp
    omega

theorem lowerCU_scheme_lower {n : Nat} (h : isSchemeCU n = true) :
    isLowerSchemeCU (lowerCU n) = true := by
  unfold isSchemeCU isAlphaCU isDigitCU at h
  unfold lowerCU isLowerSchemeCU isLowerAlphaCU isDigitCU
  simp at h ⊢
  by_cases h2 : 65 ≤ n ∧ n ≤ 90
  · rw [if_pos h2]
    omega
  · rw [if_neg h2]
    omega

theorem isHostCU_spec {n : Nat} (h : isHostCU n = true) :
    n ≠ 32 ∧ n ≠ 35 ∧ n ≠ 47 ∧ n ≠ 58 ∧ n ≠ 63 ∧ n ≠ 64 ∧ n ≠ 91 ∧ n ≠ 92 ∧ n ≠ 93 := by
  unfold isHostCU isHostForbiddenCU at h
  simp at h
  exact h

theorem lowerCU_host {n : Nat} (h : isHostCU n = true) : isHostCU (lowerCU n) = true := by
  unfold isHostCU isHostForbiddenCU at h ⊢
  unfold lowerCU
  simp at h ⊢
  by_cases h2 : 65 ≤ n ∧ n ≤ 90
  · rw [if_pos h2]
    omega
  · rw [if_neg h2]
    omega

theorem isDigitCU_spec {n : Nat} (h : isDigitCU n = true) : 48 ≤ n ∧ n ≤ 57 := by
  unfold isDigitCU at h
  simpa using h

theorem natToDigits_ne_nil (p : Nat) : natToDigits p ≠ [] := by
  unfold natToDigits
  by_cases h : p = 0
  · rw [if_pos h]
    simp
  · rw [if_neg h]
    simp
    exact Nat.digits_ne_nil_iff_ne_zero.mpr h

theorem natToDigits_all_digits (p : Nat) : ∀ d ∈ natToDigits p, isDigitCU d = true := by
  unfold natToDigits
  by_cases h : p = 0
  · rw [if_pos h]
    intro d hd
    simp at hd
    simp [hd, isDigitCU]
  · rw [if_neg h]
    intro d hd
    simp at hd
    obtain ⟨e, he, rfl⟩ := hd
    have := Nat.digits_lt_base (by norm_num) he
    unfold isDigitCU
    simp
    omega

theorem natOfDigits_natToDigits (p : Nat) : natOfDigits (natToDigits p) = p := by
  unfold natOfDigits natToDigits
  by_cases h : p = 0
  · rw [if_pos h]
    simp [Nat.ofDigits, h]
  · rw [if_neg h]
    rw [List.map_map]
    have : ((fun n => n - 48) ∘ fun d => d + 48) = id := by
      funext x
      simp
    rw [List.map_reverse]
    rw [this, List.map_id, List.reverse_reverse]
    exact Nat.ofDigits_digits 10 p

theorem splitFirst_eq_none_of_not_mem {sep : Nat} :
    ∀ {a : JsStr}, sep ∉ a → splitFirst sep a = none := by
  intro a
  induction a with
  | nil => intro _; rfl
  | cons x xs ih =>
    intro h
    have hx : ¬ x = sep := by
      intro hc
      subst hc
      exact h (List.mem_cons_self x xs)
    unfold splitFirst
    rw [if_neg hx]
    rw [ih (fun hc => h (List.mem_cons_of_mem x hc))]

theorem splitFirst_append_of_not_mem {sep : Nat} :
    ∀ {a : JsStr}, sep ∉ a → ∀ (b : JsStr), splitFirst sep (a ++ sep :: b) = some (a, b) := by
  intro a
  induction a with
  | nil =>
    intro _ b
    unfold splitFirst
    simp
  | cons x xs ih =>
    intro h b
    have hx : ¬ x = sep := by
      intro hc
      subst hc
      exact h (List.mem_cons_self x xs)
    show splitFirst sep (x :: (xs ++ sep :: b)) = _
    unfold splitFirst
    rw [if_neg hx]
    rw [ih (fun hc => h (List.mem_cons_of_mem x hc)) b]

theorem spanUntil_cons_mem {stops : List Nat} {c : Nat} (cs : JsStr) (h : c ∈ stops) :
    spanUntil stops (c :: cs) = ([], c :: cs) := by
  unfold spanUntil
  rw [if_pos h]

theorem spanUntil_cons_not_mem {stops : List Nat} {c : Nat} (cs : JsStr) (h : c ∉ stops) :
    spanUntil stops (c :: cs) =
      (c :: (spanUntil stops cs).1, (spanUntil stops cs).2) := by
  conv_lhs => unfold spanUntil
  rw [if_neg h]

theorem spanUntil_append {stops : List Nat} :
    ∀ {a : JsStr}, (∀ c ∈ a, c ∉ stops) →
      ∀ {b : JsStr}, (b = [] ∨ ∃ c cs, b = c :: cs ∧ c ∈ stops) →
      spanUntil stops (a ++ b) = (a, b) := by
  intro a
  induction a with
  | nil =>
    intro _ b hb
    rcases hb with rfl | ⟨c, cs, rfl, hc⟩
    · rfl
    · simpa using spanUntil_cons_mem cs hc
  | cons x xs ih =>
    intro h b hb
    show spanUntil stops (x :: (xs ++ b)) = _
    rw [spanUntil_cons_not_mem _ (h x (List.mem_cons_self x xs))]
    rw [ih (fun c hc => h c (List.mem_cons_of_mem x hc)) hb]

theorem spanUntil_fst_not_stop {stops : List Nat} :
    ∀ {s : JsStr}, ∀ c ∈ (spanUntil stops s).1, c ∉ stops := by
  intro s
  induction s with
  | nil => intro c hc; simp [spanUntil] at hc
  | cons x xs ih =>
    intro c hc
    by_cases hx : x ∈ stops
    · rw [spanUntil_cons_mem xs hx] at hc
      simp at hc
    · rw [spanUntil_cons_not_mem xs hx] at hc
      rcases List.mem_cons.mp hc with rfl | hc1
      · exact hx
      · exact ih c hc1

theorem spanUntil_snd_shape (stops : List Nat) :
    ∀ (s : JsStr), (spanUntil stops s).2 = [] ∨
      ∃ c cs, (spanUntil stops s).2 = c :: cs ∧ c ∈ stops := by
  intro s
  induction s with
  | nil => exact Or.inl rfl
  | cons x xs ih =>
    by_cases hx : x ∈ stops
    · rw [spanUntil_cons_mem xs hx]
      exact Or.inr ⟨x, xs, rfl, hx⟩
    · rw [spanUntil_cons_not_mem xs hx]
      exact ih

theorem mem_replaceP5Seg {c : Nat} :
    ∀ {p : JsStr}, c ∈ replaceP5Seg p → c ∈ p ∨ c ∈ segFull := by
  intro p
  induction p with
  | nil => intro h; simp [replaceP5Seg] at h
  | cons x xs ih =>
    intro h
    unfold replaceP5Seg at h
    by_cases h1 : hasPrefixCU segSketches (x :: xs) = true
    · rw [if_pos h1] at h
      rcases List.mem_append.mp h with h2 | h2
      · exact Or.inr h2
      · exact Or.inl ((List.drop_subset _ _) h2)
    · rw [if_neg h1] at h
      by_cases h2 : hasPrefixCU segEdit (x :: xs) = true
      · rw [if_pos h2] at h
        rcases List.mem_append.mp h with h3 | h3
        · exact Or.inr h3
        · exact Or.inl ((List.drop_subset _ _) h3)
      · rw [if_neg h2] at h
        rcases List.mem_cons.mp h with rfl | h3
        · exact Or.inl (List.mem_cons_self _ _)
        · rcases ih h3 with h4 | h4
          · exact Or.inl (List.mem_cons_of_mem x h4)
          · exact Or.inr h4

theorem segFull_clean : ∀ c ∈ segFull, (! (c == 63 || c == 35)) = true := by decide

theorem replaceP5Seg_pathOK {p : JsStr} (h : pathOKB p = true) :
    pathOKB (replaceP5Seg p) = true := by
  unfold pathOKB at h ⊢
  simp only [Bool.and_eq_true] at h ⊢
  obtain ⟨hhead, hall⟩ := h
  constructor
  · cases p with
    | nil => simp at hhead
    | cons x xs =>
      simp only [List.headD_cons, beq_iff_eq] at hhead
      subst hhead
      unfold replaceP5Seg
      by_cases h1 : hasPrefixCU segSketches (47 :: xs) = true
      · rw [if_pos h1]
        rfl
      · rw [if_neg h1]
        by_cases h2 : hasPrefixCU segEdit (47 :: xs) = true
        · rw [if_pos h2]
          rfl
        · rw [if_neg h2]
          rfl
  · rw [List.all_eq_true] at hall ⊢
    intro c hc
    rcases mem_replaceP5Seg hc with h1 | h1
    · exact hall c h1
    · exact segFull_clean c h1

theorem embedSeg_clean : ∀ c ∈ jstr ("/embed"), (! (c == 63 || c == 35)) = true := by decide

theorem mem_stripTrailSlash {c : Nat} {p : JsStr} (h : c ∈ stripTrailSlash p) : c ∈ p := by
  unfold stripTrailSlash at h
  split at h
  · exact List.dropLast_subset p h
  · exact h

theorem embedPath_pathOK {p : JsStr} (h : pathOKB p = true) :
    pathOKB (stripTrailSlash p ++ jstr ("/embed")) = true := by
  unfold pathOKB at h ⊢
  simp only [Bool.and_eq_true] at h ⊢
  obtain ⟨hhead, hall⟩ := h
  constructor
  · cases p with
    | nil => simp at hhead
    | cons x xs =>
      simp only [List.headD_cons, beq_iff_eq] at hhead
      subst hhead
      unfold stripTrailSlash
      split
      · cases hxs : xs.dropLast with
        | nil =>
          have : (47 :: xs).dropLast = [] ∨ (47 :: xs).dropLast = 47 :: xs.dropLast := by
            cases xs with
            | nil => exact Or.inl rfl
            | cons y ys => exact Or.inr (by simp)
          rcases this with h2 | h2
          · rw [h2]
            rfl
          · rw [h2, hxs]
            rfl
        | cons z zs =>
          have : (47 :: xs).dropLast = [] ∨ (47 :: xs).dropLast = 47 :: xs.dropLast := by
            cases xs with
            | nil => exact Or.inl rfl
            | cons y ys => exact Or.inr (by simp)
          rcases this with h2 | h2
          · rw [h2]
            rfl
          · rw [h2]
            rfl
      · rfl
  · rw [List.all_eq_true] at hall ⊢
    intro c hc
    rcases List.mem_append.mp hc with h1 | h1
    · exact hall c (mem_stripTrailSlash h1)
    · exact embedSeg_clean c h1

theorem hasSub_cons (pat : JsStr) (c : Nat) (cs : JsStr) :
    hasSub pat (c :: cs) = (hasPrefixCU pat (c :: cs) || hasSub pat cs) := rfl

theorem replaceP5Seg_noop {p : JsStr} (h : hasP5Seg p = false) : replaceP5Seg p = p := by
  unfold hasP5Seg at h
  induction p with
  | nil => rfl
  | cons x xs ih =>
    rw [hasSub_cons, hasSub_cons] at h
    simp only [Bool.or_eq_false_iff] at h
    obtain ⟨⟨h1, h2⟩, h3, h4⟩ := h
    unfold replaceP5Seg
    rw [if_neg (by rw [h1]; exact Bool.false_ne_true)]
    rw [if_neg (by rw [h3]; exact Bool.false_ne_true)]
    rw [ih (by rw [h2, h4]; rfl)]

theorem hasPrefixCU_append_self : ∀ (a t : JsStr), hasPrefixCU a (a ++ t) = true := by
  intro a t
  induction a with
  | nil => rfl
  | cons x xs ih =>
    show (x == x && hasPrefixCU xs (xs ++ t)) = true
    rw [ih]
    simp

theorem endsEmbed_append (x : JsStr) : endsEmbed (x ++ jstr ("/embed")) = true := by
  unfold endsEmbed hasSuffixCU
  rw [List.reverse_append]
  exact hasPrefixCU_append_self _ _

theorem canonicalB_set_path {U : JsUrl} {p2 : JsStr} (h : canonicalB U = true)
    (hp : pathOKB p2 = true) : canonicalB { U with path := p2 } = true := by
  unfold canonicalB at h ⊢
  simp only [Bool.and_eq_true] at h ⊢
  exact ⟨⟨⟨⟨⟨h.1.1.1.1.1, h.1.1.1.1.2⟩, h.1.1.1.2⟩, h.1.1.2⟩, hp⟩, h.2⟩

theorem parsePortPart_canonical {scheme : JsStr} {x : Option JsStr} {port : Option Nat}
    (h : parsePortPart scheme x = some port) :
    port = none ∨ ∃ p, port = some p ∧ p ≤ 65535 ∧ defaultPort scheme ≠ some p := by
  cases x with
  | none =>
    unfold parsePortPart at h
    injection h with h1
    exact Or.inl h1.symm
  | some ds =>
    cases ds with
    | nil =>
      unfold parsePortPart at h
      injection h with h1
      exact Or.inl h1.symm
    | cons d ds =>
      unfold parsePortPart at h
      have hr : (if (d :: ds).all isDigitCU = true then
          if natOfDigits (d :: ds) ≤ 65535 then
            some (if defaultPort scheme = some (natOfDigits (d :: ds)) then none
                  else some (natOfDigits (d :: ds)))
          else none
        else none) = some port := h
      by_cases h1 : (d :: ds).all isDigitCU = true
      · rw [if_pos h1] at hr
        by_cases h2 : natOfDigits (d :: ds) ≤ 65535
        · rw [if_pos h2] at hr
          by_cases h3 : defaultPort scheme = some (natOfDigits (d :: ds))
          · rw [if_pos h3] at hr
            injection hr with h4
            exact Or.inl h4.symm
          · rw [if_neg h3] at hr
            injection hr with h4
            exact Or.inr ⟨natOfDigits (d :: ds), h4.symm, h2, h3⟩
        · rw [if_neg h2] at hr
          cases hr
      · rw [if_neg h1] at hr
        cases hr

theorem parseQF_cons (c : Nat) (cs : JsStr) :
    parseQF (c :: cs) =
      if c = 63 then
        (match (spanUntil [35] cs).2 with
         | _ :: f => (some (spanUntil [35] cs).1, some f)
         | [] => (some (spanUntil [35] cs).1, none))
      else (none, some cs) := rfl

theorem parseQF_fst (r : JsStr) :
    (parseQF r).1 = none ∨
      ∃ q, (parseQF r).1 = some q ∧ ∀ x ∈ q, (! (x == 35)) = true := by
  cases r with
  | nil => exact Or.inl rfl
  | cons c cs =>
    rw [parseQF_cons]
    by_cases hc : c = 63
    · rw [if_pos hc]
      have hq : ∀ x ∈ (spanUntil [35] cs).1, (! (x == 35)) = true := by
        intro x hx
        have := spanUntil_fst_not_stop x hx
        simp at this
        simp [this]
      cases hsnd : (spanUntil [35] cs).2 with
      | nil => exact Or.inr ⟨(spanUntil [35] cs).1, rfl, hq⟩
      | cons x f => exact Or.inr ⟨(spanUntil [35] cs).1, rfl, hq⟩
    · rw [if_neg hc]
      exact Or.inl rfl

theorem pathOK_slash : pathOKB [47] = true := by decide

theorem parseHostPort_canonical {scheme auth : JsStr} {host : JsStr} {port : Option Nat}
    (h : parseHostPort scheme auth = some (host, port)) :
    host ≠ [] ∧ (∀ x ∈ host, isHostCU x = true ∧ isUpperCU x = false) ∧
    (match port with | none => True | some p => p ≤ 65535 ∧ defaultPort scheme ≠ some p) := by
  unfold parseHostPort at h
  split at h
  · cases h
  · split at h
    · split at h
      · cases h
      · rename_i hne64 hcond hx port2 hpp
        obtain ⟨hne, hall⟩ := hcond
        injection h with h2
        rw [Prod.mk.injEq] at h2
        obtain ⟨h3, h4⟩ := h2
        subst h3
        subst h4
        rw [List.all_eq_true] at hall
        refine ⟨?_, ?_, ?_⟩
        · unfold lowerJs
          intro hc
          exact hne (List.map_eq_nil_iff.mp hc)
        · intro x hx2
          unfold lowerJs at hx2
          obtain ⟨y, hy, rfl⟩ := List.mem_map.mp hx2
          exact ⟨lowerCU_host (hall y hy), lowerCU_not_upper y⟩
        · rcases parsePortPart_canonical hpp with rfl | ⟨p, rfl, hle, hdp⟩
          · exact trivial
          · exact ⟨hle, hdp⟩
    · cases h

theorem parseAuthority_canonical {scheme rest2 : JsStr} {U : JsUrl}
    (hsch : schemeOKB scheme = true) (h : parseAuthority scheme rest2 = some U) :
    canonicalB U = true := by
  unfold parseAuthority at h
  rw [Option.map_eq_some'] at h
  obtain ⟨hp, hhp, hU⟩ := h
  obtain ⟨host, port⟩ := hp
  obtain ⟨h1, h2, h3⟩ := parseHostPort_canonical hhp
  subst hU
  unfold assembleUrl canonicalB
  simp only [Bool.and_eq_true]
  refine ⟨⟨⟨⟨⟨hsch, ?_⟩, ?_⟩, ?_⟩, ?_⟩, ?_⟩
  · simp only [Bool.not_eq_true', beq_eq_false_iff_ne, ne_eq]
    exact h1
  · rw [List.all_eq_true]
    intro x hx
    rw [Bool.and_eq_true]
    obtain ⟨ha, hb⟩ := h2 x hx
    exact ⟨ha, by rw [hb]; rfl⟩
  · rcases port with _ | p
    · rfl
    · obtain ⟨hle, hdp⟩ := h3
      simp only []
      rw [Bool.and_eq_true]
      exact ⟨by simpa using hle, by simp [hdp]⟩
  · by_cases hp1 : (spanUntil [63, 35] (spanUntil [47, 63, 35] rest2).2).1 = []
    · rw [if_pos hp1]
      exact pathOK_slash
    · rw [if_neg hp1]
      unfold pathOKB
      rw [Bool.and_eq_true]
      constructor
      · rcases spanUntil_snd_shape [47, 63, 35] rest2 with h4 | ⟨c, cs, h4, hc⟩
        · rw [h4] at hp1
          exact absurd rfl hp1
        · rw [h4] at hp1 ⊢
          by_cases hcs : c ∈ [63, 35]
          · rw [spanUntil_cons_mem cs hcs] at hp1
            exact absurd rfl hp1
          · rw [spanUntil_cons_not_mem cs hcs] at hp1 ⊢
            have hc47 : c = 47 := by
              simp at hc hcs
              omega
            subst hc47
            rfl
      · rw [List.all_eq_true]
        intro x hx2
        have := spanUntil_fst_not_stop x hx2
        simp at this
        simp [this]
  · rcases parseQF_fst (spanUntil [63, 35] (spanUntil [47, 63, 35] rest2).2).2 with h4 |
      ⟨q, h4, hq⟩
    · rw [h4]
    · rw [h4]
      simp only []
      rw [List.all_eq_true]
      exact hq

theorem schemeOKB_lower {c : Nat} {cs : JsStr}
    (h : (isAlphaCU c && cs.all isSchemeCU) = true) :
    schemeOKB (lowerJs (c :: cs)) = true := by
  rw [Bool.and_eq_true] at h
  unfold lowerJs
  simp only [List.map_cons]
  show (isLowerAlphaCU (lowerCU c) && (List.map lowerCU cs).all isLowerSchemeCU) = true
  rw [Bool.and_eq_true]
  refine ⟨lowerCU_alpha_lower h.1, ?_⟩
  rw [List.all_eq_true]
  intro x hx
  obtain ⟨y, hy, rfl⟩ := List.mem_map.mp hx
  rw [List.all_eq_true] at h
  exact lowerCU_scheme_lower (h.2 y hy)

theorem parseUrl_canonical {s : JsStr} {U : JsUrl} (h : parseUrl s = some U) :
    canonicalB U = true := by
  unfold parseUrl at h
  cases hsp : splitFirst 58 s with
  | none => rw [hsp] at h; cases h
  | some pr =>
    rw [hsp] at h
    obtain ⟨rawScheme, rest⟩ := pr
    cases rawScheme with
    | nil => cases h
    | cons c cs =>
      cases rest with
      | nil => cases h
      | cons r1 rest1 =>
        cases rest1 with
        | nil => cases h
        | cons r2 rest2 =>
          have h2 : (if r1 = 47 ∧ r2 = 47 ∧ (isAlphaCU c && cs.all isSchemeCU) = true then
              parseAuthority (lowerJs (c :: cs)) rest2 else none) = some U := h
          split at h2
          · rename_i hcond
            exact parseAuthority_canonical (schemeOKB_lower hcond.2.2) h2
          · cases h2

theorem isLowerAlphaCU_alpha {n : Nat} (h : isLowerAlphaCU n = true) : isAlphaCU n = true := by
  unfold isLowerAlphaCU at h
  unfold isAlphaCU
  simp at h ⊢
  omega

theorem pathOKB_shape {p : JsStr} (h : pathOKB p = true) :
    (∃ tl, p = 47 :: tl) ∧ ∀ x ∈ p, x ≠ 63 ∧ x ≠ 35 := by
  unfold pathOKB at h
  rw [Bool.and_eq_true] at h
  obtain ⟨hhead, hall⟩ := h
  constructor
  · cases p with
    | nil => simp at hhead
    | cons x xs =>
      simp only [List.headD_cons, beq_iff_eq] at hhead
      exact ⟨xs, by rw [hhead]⟩
  · intro x hx
    rw [List.all_eq_true] at hall
    have := hall x hx
    simp at this
    exact this

theorem mem_port_str {port : Option Nat} {x : Nat} (hx : x ∈ portStr port) :
    x = 58 ∨ (48 ≤ x ∧ x ≤ 57) := by
  cases port with
  | none => simp [portStr] at hx
  | some p =>
    unfold portStr at hx
    rcases List.mem_cons.mp hx with rfl | hx1
    · exact Or.inl rfl
    · exact Or.inr (isDigitCU_spec (natToDigits_all_digits p x hx1))

theorem host_append_port_clean {host : JsStr} {port : Option Nat}
    (hhall : ∀ x ∈ host, isHostCU x = true) :
    ∀ c ∈ host ++ portStr port, c ∉ ([47, 63, 35] : List Nat) := by
  intro c hc
  rcases List.mem_append.mp hc with h1 | h1
  · have := isHostCU_spec (hhall c h1)
    simp
    omega
  · have := mem_port_str h1
    simp
    omega

theorem not_mem_64 {host : JsStr} {port : Option Nat}
    (hhall : ∀ x ∈ host, isHostCU x = true) :
    64 ∉ host ++ portStr port := by
  intro hc
  rcases List.mem_append.mp hc with h1 | h1
  · have := isHostCU_spec (hhall 64 h1)
    omega
  · have := mem_port_str h1
    omega

theorem not_mem_58_host {host : JsStr} (hhall : ∀ x ∈ host, isHostCU x = true) :
    (58 : Nat) ∉ host := by
  intro hc
  have := isHostCU_spec (hhall 58 hc)
  omega

theorem queryStr_fragStr_shape (query frag : Option JsStr) :
    queryStr query ++ fragStr frag = [] ∨
      ∃ c cs, queryStr query ++ fragStr frag = c :: cs ∧ c ∈ ([63, 35] : List Nat) := by
  cases query with
  | some q => exact Or.inr ⟨63, q ++ fragStr frag, by simp [queryStr], by simp⟩
  | none =>
    cases frag with
    | none => exact Or.inl rfl
    | some f => exact Or.inr ⟨35, f, by simp [queryStr, fragStr], by simp⟩

theorem parseTail_eval {path : JsStr} (hpath : pathOKB path = true)
    (query frag : Option JsStr)
    (hquery : ∀ q, query = some q → ∀ x ∈ q, x ≠ 35) :
    spanUntil [63, 35] (path ++ (queryStr query ++ fragStr frag)) =
      (path, queryStr query ++ fragStr frag) ∧
    parseQF (queryStr query ++ fragStr frag) = (query, frag) := by
  obtain ⟨⟨tl, hptl⟩, hpcl⟩ := pathOKB_shape hpath
  have hpa : ∀ c ∈ path, c ∉ ([63, 35] : List Nat) := by
    intro c hc
    have := hpcl c hc
    simp
    omega
  refine ⟨spanUntil_append hpa (queryStr_fragStr_shape query frag), ?_⟩
  cases query with
  | some q =>
    show parseQF ((63 :: q) ++ fragStr frag) = _
    rw [List.cons_append]
    rw [parseQF_cons]
    rw [if_pos rfl]
    have hq : spanUntil [35] (q ++ fragStr frag) = (q, fragStr frag) := by
      refine spanUntil_append ?_ ?_
      · intro c hc
        have := hquery q rfl c hc
        simp
        omega
      · cases frag with
        | none => exact Or.inl rfl
        | some f => exact Or.inr ⟨35, f, rfl, by simp⟩
    rw [hq]
    cases frag with
    | none => rfl
    | some f => rfl
  | none =>
    cases frag with
    | none => rfl
    | some f =>
      show parseQF ([] ++ 35 :: f) = _
      rw [List.nil_append]
      rw [parseQF_cons]
      rw [if_neg (by omega)]

theorem hostOf_append_none {host : JsStr} (hh : (58 : Nat) ∉ host) :
    hostOf (host ++ portStr none) = host := by
  rw [show portStr none = [] from rfl, List.append_nil]
  unfold hostOf
  rw [splitFirst_eq_none_of_not_mem hh]

theorem portPartOf_append_none {host : JsStr} (hh : (58 : Nat) ∉ host) :
    portPartOf (host ++ portStr none) = none := by
  rw [show portStr none = [] from rfl, List.append_nil]
  unfold portPartOf
  rw [splitFirst_eq_none_of_not_mem hh]

theorem hostOf_append_some {host : JsStr} (p : Nat) (hh : (58 : Nat) ∉ host) :
    hostOf (host ++ portStr (some p)) = host := by
  rw [show portStr (some p) = 58 :: natToDigits p from rfl]
  unfold hostOf
  rw [splitFirst_append_of_not_mem hh]

theorem portPartOf_append_some {host : JsStr} (p : Nat) (hh : (58 : Nat) ∉ host) :
    portPartOf (host ++ portStr (some p)) = some (natToDigits p) := by
  rw [show portStr (some p) = 58 :: natToDigits p from rfl]
  unfold portPartOf
  rw [splitFirst_append_of_not_mem hh]

theorem parseHostPort_serialize {scheme host : JsStr} {port : Option Nat}
    (hhne : host ≠ []) (hhall : ∀ x ∈ host, isHostCU x = true)
    (hhnu : ∀ x ∈ host, isUpperCU x = false)
    (hport : ∀ p, port = some p → p ≤ 65535 ∧ defaultPort scheme ≠ some p) :
    parseHostPort scheme (host ++ portStr port) = some (host, port) := by
  unfold parseHostPort
  rw [if_neg (not_mem_64 hhall)]
  cases port with
  | none =>
    rw [hostOf_append_none (not_mem_58_host hhall)]
    rw [portPartOf_append_none (not_mem_58_host hhall)]
    rw [if_pos ⟨hhne, by rw [List.all_eq_true]; exact hhall⟩]
    rw [show parsePortPart scheme none = some none from rfl]
    show some (lowerJs host, none) = some (host, none)
    rw [lowerJs_eq_self hhnu]
  | some p =>
    rw [hostOf_append_some p (not_mem_58_host hhall)]
    rw [portPartOf_append_some p (not_mem_58_host hhall)]
    rw [if_pos ⟨hhne, by rw [List.all_eq_true]; exact hhall⟩]
    have hport2 : p ≤ 65535 ∧ defaultPort scheme ≠ some p := hport p rfl
    obtain ⟨d, ds, hdds⟩ : ∃ d ds, natToDigits p = d :: ds := by
      cases hnd : natToDigits p with
      | nil => exact absurd hnd (natToDigits_ne_nil p)
      | cons d ds => exact ⟨d, ds, rfl⟩
    have hpp : parsePortPart scheme (some (natToDigits p)) = some (some p) := by
      rw [hdds]
      have hr : (if (d :: ds).all isDigitCU = true then
          if natOfDigits (d :: ds) ≤ 65535 then
            some (if defaultPort scheme = some (natOfDigits (d :: ds)) then none
                  else some (natOfDigits (d :: ds)))
          else none
        else none) = some (some p) := by
        rw [if_pos (by rw [← hdds, List.all_eq_true]; exact natToDigits_all_digits p)]
        rw [show natOfDigits (d :: ds) = p from by rw [← hdds]; exact natOfDigits_natToDigits p]
        rw [if_pos hport2.1]
        rw [if_neg hport2.2]
      exact hr
    rw [hpp]
    show some (lowerJs host, some p) = some (host, some p)
    rw [lowerJs_eq_self hhnu]

theorem parseAuthority_serialize {scheme host : JsStr} {port : Option Nat} {path : JsStr}
    {query frag : Option JsStr}
    (hhne : host ≠ [])
    (hhall : ∀ x ∈ host, isHostCU x = true)
    (hhnu : ∀ x ∈ host, isUpperCU x = false)
    (hport : ∀ p, port = some p → p ≤ 65535 ∧ defaultPort scheme ≠ some p)
    (hpath : pathOKB path = true)
    (hquery : ∀ q, query = some q → ∀ x ∈ q, x ≠ 35) :
    parseAuthority scheme
      (host ++ (portStr port ++ (path ++ (queryStr query ++ fragStr frag)))) =
      some ⟨scheme, host, port, path, query, frag⟩ := by
  obtain ⟨htail1, htail2⟩ := parseTail_eval hpath query frag hquery
  obtain ⟨⟨tl, hptl⟩, hpcl⟩ := pathOKB_shape hpath
  have har : spanUntil [47, 63, 35]
      (host ++ (portStr port ++ (path ++ (queryStr query ++ fragStr frag)))) =
      (host ++ portStr port, path ++ (queryStr query ++ fragStr frag)) := by
    rw [← List.append_assoc]
    refine spanUntil_append (host_append_port_clean hhall)
      (Or.inr ⟨47, tl ++ (queryStr query ++ fragStr frag), ?_, by simp⟩)
    rw [hptl]
    simp
  unfold parseAuthority
  rw [har]
  simp only []
  rw [parseHostPort_serialize hhne hhall hhnu hport]
  rw [Option.map_some']
  simp only []
  unfold assembleUrl
  rw [htail1]
  simp only []
  rw [if_neg (by rw [hptl]; simp)]
  rw [htail2]

theorem serializeUrl_parseUrl {U : JsUrl} (h : canonicalB U = true) :
    parseUrl (serializeUrl U) = some U := by
  obtain ⟨scheme, host, port, path, query, frag⟩ := U
  unfold canonicalB at h
  simp only [Bool.and_eq_true] at h
  obtain ⟨⟨⟨⟨⟨hsch, hhne⟩, hhall⟩, hport⟩, hpath⟩, hquery⟩ := h
  cases scheme with
  | nil => cases hsch
  | cons c cs =>
    have hsch2 : (isLowerAlphaCU c && cs.all isLowerSchemeCU) = true := hsch
    rw [Bool.and_eq_true, List.all_eq_true] at hsch2
    have hnc : (58 : Nat) ∉ c :: cs := by
      intro hmem
      rcases List.mem_cons.mp hmem with h1 | h1
      · exact isLowerAlphaCU_ne_colon hsch2.1 h1.symm
      · exact (isLowerSchemeCU_spec (hsch2.2 58 h1)).2.1 rfl
    have hnupper : ∀ n ∈ c :: cs, isUpperCU n = false := by
      intro n hn
      rcases List.mem_cons.mp hn with rfl | h1
      · exact isLowerAlphaCU_not_upper hsch2.1
      · exact (isLowerSchemeCU_spec (hsch2.2 n h1)).1
    have hcond : (isAlphaCU c && cs.all isSchemeCU) = true := by
      rw [Bool.and_eq_true, List.all_eq_true]
      exact ⟨isLowerAlphaCU_alpha hsch2.1,
        fun x hx => (isLowerSchemeCU_spec (hsch2.2 x hx)).2.2⟩
    have hhne2 : host ≠ [] := by
      simp only [Bool.not_eq_true', beq_eq_false_iff_ne, ne_eq] at hhne
      exact hhne
    rw [List.all_eq_true] at hhall
    have hhall2 : ∀ x ∈ host, isHostCU x = true := by
      intro x hx
      have := hhall x hx
      rw [Bool.and_eq_true] at this
      exact this.1
    have hhnu2 : ∀ x ∈ host, isUpperCU x = false := by
      intro x hx
      have := hhall x hx
      rw [Bool.and_eq_true] at this
      have h2 := this.2
      simp only [Bool.not_eq_true'] at h2
      exact h2
    have hport2 : ∀ p, port = some p → p ≤ 65535 ∧ defaultPort (c :: cs) ≠ some p := by
      intro p hp
      subst hp
      simp only [] at hport
      rw [Bool.and_eq_true] at hport
      refine ⟨by simpa using hport.1, ?_⟩
      have h2 := hport.2
      simp only [Bool.not_eq_true', beq_eq_false_iff_ne, ne_eq] at h2
      exact h2
    have hquery2 : ∀ q, query = some q → ∀ x ∈ q, x ≠ 35 := by
      intro q hqe
      subst hqe
      simp only [] at hquery
      rw [List.all_eq_true] at hquery
      intro x hx
      have := hquery x hx
      simpa using this
    have hser : serializeUrl ⟨c :: cs, host, port, path, query, frag⟩ =
        (c :: cs) ++ 58 :: (47 :: 47 ::
          (host ++ (portStr port ++ (path ++ (queryStr query ++ fragStr frag))))) := by
      unfold serializeUrl
      simp [List.append_assoc]
    rw [hser]
    unfold parseUrl
    rw [splitFirst_append_of_not_mem hnc]
    show (if (47 : Nat) = 47 ∧ (47 : Nat) = 47 ∧ (isAlphaCU c && cs.all isSchemeCU) = true then
        parseAuthority (lowerJs (c :: cs))
          (host ++ (portStr port ++ (path ++ (queryStr query ++ fragStr frag))))
      else none) = some ⟨c :: cs, host, port, path, query, frag⟩
    rw [if_pos ⟨rfl, rfl, hcond⟩]
    rw [lowerJs_eq_self hnupper]
    exact parseAuthority_serialize hhne2 hhall2 hhnu2 hport2 hpath hquery2

theorem canonicalB_path {U : JsUrl} (h : canonicalB U = true) : pathOKB U.path = true := by
  unfold canonicalB at h
  simp only [Bool.and_eq_true] at h
  exact h.1.2

theorem normalizeP5Url_parse_some {u : JsStr} {U : JsUrl} (hp : parseUrl u = some U) :
    normalizeP5Url u =
      (if (hasSub (jstr ("p5js")) (lowerJs u) && hasSub (jstr ("editor")) (lowerJs u)) = true then
        (if (hasPrefixCU (jstr ("editor.")) (lowerJs U.host) &&
             hasSub (jstr ("p5js.org")) (lowerJs U.host)) = true then
          serializeUrl { U with path := replaceP5Seg U.path }
        else u)
      else u) := by
  unfold normalizeP5Url
  rw [hp]

theorem normalizeP5Url_parse_none {u : JsStr} (hp : parseUrl u = none) :
    normalizeP5Url u = u := by
  unfold normalizeP5Url
  rw [hp]
  split <;> rfl

theorem normalizeOpUrl_parse_some {u : JsStr} {U : JsUrl} (hp : parseUrl u = some U) :
    normalizeOpenProcessingUrl u =
      (if hasSub (jstr ("openprocessing")) (lowerJs u) = true then
        (if (opTest U.path && ! endsEmbed U.path) = true then
          serializeUrl { U with path := stripTrailSlash U.path ++ jstr ("/embed") }
        else serializeUrl U)
      else u) := by
  unfold normalizeOpenProcessingUrl
  rw [hp]

theorem normalizeOpUrl_parse_none {u : JsStr} (hp : parseUrl u = none) :
    normalizeOpenProcessingUrl u = u := by
  unfold normalizeOpenProcessingUrl
  rw [hp]
  split <;> rfl

theorem p5_shape (u : JsStr) :
    normalizeP5Url u = u ∨
      ∃ U, canonicalB U = true ∧ normalizeP5Url u = serializeUrl U := by
  cases hp : parseUrl u with
  | none => exact Or.inl (normalizeP5Url_parse_none hp)
  | some U =>
    rw [normalizeP5Url_parse_some hp]
    split
    · split
      · exact Or.inr ⟨{ U with path := replaceP5Seg U.path },
          canonicalB_set_path (parseUrl_canonical hp)
            (replaceP5Seg_pathOK (canonicalB_path (parseUrl_canonical hp))), rfl⟩
      · exact Or.inl rfl
    · exact Or.inl rfl

theorem op_shape (u : JsStr) :
    normalizeOpenProcessingUrl u = u ∨
      ∃ U, canonicalB U = true ∧ normalizeOpenProcessingUrl u = serializeUrl U ∧
        (opTest U.path = false ∨ endsEmbed U.path = true) := by
  cases hp : parseUrl u with
  | none => exact Or.inl (normalizeOpUrl_parse_none hp)
  | some U =>
    rw [normalizeOpUrl_parse_some hp]
    split
    · split
      · refine Or.inr ⟨{ U with path := stripTrailSlash U.path ++ jstr ("/embed") },
          canonicalB_set_path (parseUrl_canonical hp)
            (embedPath_pathOK (canonicalB_path (parseUrl_canonical hp))), rfl, Or.inr ?_⟩
        exact endsEmbed_append _
      · rename_i hcond
        refine Or.inr ⟨U, parseUrl_canonical hp, rfl, ?_⟩
        cases he : endsEmbed U.path
        · cases ht : opTest U.path
          · exact Or.inl rfl
          · exact absurd (by rw [ht, he]; rfl) hcond
        · exact Or.inr rfl
    · exact Or.inl rfl

theorem op_idem (u : JsStr) :
    normalizeOpenProcessingUrl (normalizeOpenProcessingUrl u) =
      normalizeOpenProcessingUrl u := by
  rcases op_shape u with h | ⟨U, hc, he, hcond⟩
  · rw [h, h]
  · rw [he]
    unfold normalizeOpenProcessingUrl
    split
    · rw [serializeUrl_parseUrl hc]
      show (if (opTest U.path && ! endsEmbed U.path) = true then
          serializeUrl { U with path := stripTrailSlash U.path ++ jstr ("/embed") }
        else serializeUrl U) = serializeUrl U
      rcases hcond with h1 | h1
      · rw [if_neg (by rw [h1]; simp)]
      · rw [if_neg (by rw [h1]; simp)]
    · rfl

theorem p5_noop_on_clean {U : JsUrl} (hc : canonicalB U = true)
    (hclean : hasP5Seg U.path = false) :
    normalizeP5Url (serializeUrl U) = serializeUrl U := by
  unfold normalizeP5Url
  split
  · rw [serializeUrl_parseUrl hc]
    show (if (hasPrefixCU (jstr ("editor.")) (lowerJs U.host) &&
        hasSub (jstr ("p5js.org")) (lowerJs U.host)) = true then
        serializeUrl { U with path := replaceP5Seg U.path }
      else serializeUrl U) = serializeUrl U
    split
    · rw [replaceP5Seg_noop hclean]
    · rfl
  · rfl

/-- Claim C1 (amended): the combined normalization is idempotent on every input
whose once-normalized form, whenever it parses as a URL, has no remaining
`/sketches/` or `/edit/` path segment. -/
theorem c1_idempotent_amended (u : JsStr)
    (h : ∀ U, parseUrl (normalizeSketchUrl u) = some U → hasP5Seg U.path = false) :
    normalizeSketchUrl (normalizeSketchUrl u) = normalizeSketchUrl u := by
  rcases op_shape (normalizeP5Url u) with hop | ⟨U, hc, he, _⟩
  · rcases p5_shape u with hp5 | ⟨U, hc, he⟩
    · unfold normalizeSketchUrl
      rw [hop, hp5, hop, hp5]
    · have hparse : parseUrl (normalizeSketchUrl u) = some U := by
        unfold normalizeSketchUrl
        rw [hop, he]
        exact serializeUrl_parseUrl hc
      have hclean := h U hparse
      unfold normalizeSketchUrl
      rw [hop, he]
      rw [p5_noop_on_clean hc hclean]
      rw [← he]
      exact hop
  · have hparse : parseUrl (normalizeSketchUrl u) = some U := by
      unfold normalizeSketchUrl
      rw [he]
      exact serializeUrl_parseUrl hc
    have hclean := h U hparse
    unfold normalizeSketchUrl
    rw [he]
    rw [p5_noop_on_clean hc hclean]
    rw [← he]
    exact op_idem (normalizeP5Url u)

theorem c1_amended_witness :
    normalizeSketchUrl (normalizeSketchUrl (jstr ("https://editor.p5js.org/user/sketches/ABC123"))) =
      normalizeSketchUrl (jstr ("https://editor.p5js.org/user/sketches/ABC123")) :=
  c1_idempotent_amended (jstr ("https://editor.p5js.org/user/sketches/ABC123"))
    (fun U hU => by
      rw [(by decide : parseUrl (normalizeSketchUrl (jstr ("https://editor.p5js.org/user/sketches/ABC123"))) =
        some ⟨jstr ("https"), jstr ("editor.p5js.org"), none, jstr ("/user/full/ABC123"), none, none⟩)] at hU
      injection hU with h2
      rw [← h2]
      decide)
